import Mathlib

/-!
Shallow embedding of the two rate limiters of this repository
(`src/rate_limiter.py` and `src/throlling.py`).

Modelling conventions:
* Wall-clock timestamps and durations (Python floats from `time.time()`)
  are modelled as exact rationals `ℚ`.
* A Python dict is modelled as a total function into `Option`, `none`
  meaning "key absent".
* A Python deque of timestamps is a `List ℚ` whose head is the front
  (oldest) element: `popleft` drops the head, `append` adds at the back.
* Methods that read `time.time()` receive each clock reading as an
  explicit parameter.  `record_message` performs two distinct readings
  in the source (one at its own first line, one inside the nested
  `can_send_message` call), so its embedding takes two parameters
  `t1 t2`: `t1` is the reading taken at the start of `record_message`
  (the value that gets appended) and `t2` the reading taken inside
  `can_send_message` (the value the admission check uses).
* Methods that mutate `self` return the new state alongside their
  result.
-/

/-- Embedding of the `while window and window[0] <= current_time - window_size:
window.popleft()` loop of `_cleanup_window`: drop leading timestamps that
fall outside the sliding window, stopping at the first one still inside. -/
def dropOld (window_size current_time : ℚ) : List ℚ → List ℚ
  | [] => []
  | t :: rest =>
      if t ≤ current_time - window_size then dropOld window_size current_time rest
      else t :: rest

/-- Number of elements of `l` that are `≥ a` (helper for counting the
timestamps of a span in a user's window). -/
def countGE (a : ℚ) (l : List ℚ) : ℕ :=
  (l.filter (fun t => decide (a ≤ t))).length

/-- Number of `true` entries in a list of booleans (helper for counting
admitted calls). -/
def numTrue : List Bool → ℕ
  | [] => 0
  | b :: rest => (if b then 1 else 0) + numTrue rest

/-- State of `SlidingWindowRateLimiter` from `src/rate_limiter.py`. -/
@[ext]
structure SlidingWindowRateLimiter where
  window_size : ℚ
  max_requests : ℤ
  users_requests : String → Option (List ℚ)

/-- Embedding of `SlidingWindowRateLimiter._cleanup_window`: prune the
user's deque and delete the user's entry if the deque becomes empty. -/
def SlidingWindowRateLimiter.cleanup_window
    (s : SlidingWindowRateLimiter) (user_id : String) (current_time : ℚ) :
    SlidingWindowRateLimiter :=
  match s.users_requests user_id with
  | none => s
  | some window =>
      let pruned := dropOld s.window_size current_time window
      if pruned = [] then
        { s with users_requests := fun u => if u = user_id then none else s.users_requests u }
      else
        { s with users_requests := fun u => if u = user_id then some pruned else s.users_requests u }

/-- Embedding of `SlidingWindowRateLimiter.can_send_message`; `current_time`
is the `time.time()` reading taken inside the method. -/
def SlidingWindowRateLimiter.can_send_message
    (s : SlidingWindowRateLimiter) (user_id : String) (current_time : ℚ) :
    Bool × SlidingWindowRateLimiter :=
  let s1 := s.cleanup_window user_id current_time
  match s1.users_requests user_id with
  | none => (true, s1)
  | some window => (decide ((window.length : ℤ) < s1.max_requests), s1)

/-- Embedding of `SlidingWindowRateLimiter.record_message`.  `t1` is the
reading of the method's own `current_time = time.time()` line (pruned with
and appended on admission); `t2` is the reading taken inside the nested
`self.can_send_message(user_id)` call (pruned with and used for the check). -/
def SlidingWindowRateLimiter.record_message
    (s : SlidingWindowRateLimiter) (user_id : String) (t1 t2 : ℚ) :
    Bool × SlidingWindowRateLimiter :=
  let s1 := s.cleanup_window user_id t1
  let r := s1.can_send_message user_id t2
  if r.1 then
    (true, { r.2 with users_requests := fun u =>
        if u = user_id then some (((r.2.users_requests user_id).getD []) ++ [t1])
        else r.2.users_requests u })
  else
    (false, r.2)

/-- Embedding of `SlidingWindowRateLimiter.time_until_next_allowed`;
`current_time` is the single `time.time()` reading of the method.  The
source reads `window[0]` only on a nonempty deque (guaranteed after
cleanup); `headI` renders that front access. -/
def SlidingWindowRateLimiter.time_until_next_allowed
    (s : SlidingWindowRateLimiter) (user_id : String) (current_time : ℚ) :
    ℚ × SlidingWindowRateLimiter :=
  match s.users_requests user_id with
  | none => (0, s)
  | some _ =>
      let s1 := s.cleanup_window user_id current_time
      match s1.users_requests user_id with
      | none => (0, s1)
      | some window =>
          if (window.length : ℤ) < s1.max_requests then (0, s1)
          else (max (s1.window_size - (current_time - window.headI)) 0, s1)

/-- Modelled from the spec: the single-snapshot atomic `record` variant the
design note describes ("takes one time snapshot and performs check and
append atomically on it") — one reading `t` is used to prune, to check
admission, and as the appended timestamp. -/
def SlidingWindowRateLimiter.record_message_atomic
    (s : SlidingWindowRateLimiter) (user_id : String) (t : ℚ) :
    Bool × SlidingWindowRateLimiter :=
  let s1 := s.cleanup_window user_id t
  let ok : Bool :=
    match s1.users_requests user_id with
    | none => true
    | some window => decide ((window.length : ℤ) < s1.max_requests)
  if ok then
    (true, { s1 with users_requests := fun u =>
        if u = user_id then some (((s1.users_requests user_id).getD []) ++ [t])
        else s1.users_requests u })
  else
    (false, s1)

/-- Timestamp list currently stored for a user (empty when absent). -/
def SlidingWindowRateLimiter.userList
    (s : SlidingWindowRateLimiter) (user_id : String) : List ℚ :=
  (s.users_requests user_id).getD []

/-- Run a sequence of `record_message` calls for one user; each element of
`calls` carries the two clock readings of one call. -/
def runRecord (user_id : String) :
    SlidingWindowRateLimiter → List (ℚ × ℚ) → List Bool × SlidingWindowRateLimiter
  | s, [] => ([], s)
  | s, c :: rest =>
      let r := s.record_message user_id c.1 c.2
      let rr := runRecord user_id r.2 rest
      (r.1 :: rr.1, rr.2)

/-- Wait-time formula of the sliding-window limiter, as a function of the
pruned window contents (helper used to characterise
`time_until_next_allowed`). -/
def waitF (window_size : ℚ) (max_requests : ℤ) (current_time : ℚ) : List ℚ → ℚ
  | [] => 0
  | e :: rest =>
      if (((e :: rest).length : ℕ) : ℤ) < max_requests then 0
      else max (window_size - (current_time - e)) 0

/-- A user's timestamp list after the two pruning passes a
`record_message s u t1 t2` call performs (the one of `record_message`
itself at `t1` and the one of the nested `can_send_message` at `t2`). -/
def prunedTwice (s : SlidingWindowRateLimiter) (user_id : String) (t1 t2 : ℚ) : List ℚ :=
  dropOld s.window_size t2 (dropOld s.window_size t1 (s.userList user_id))

/-- State of `ThrottlingRateLimiter` from `src/throlling.py`. -/
@[ext]
structure ThrottlingRateLimiter where
  min_interval : ℚ
  user_last_message_time : String → Option ℚ

/-- Embedding of `ThrottlingRateLimiter.can_send_message`; `current_time`
is the `time.time()` reading taken inside the method.  The method does not
mutate state, so only the boolean is returned. -/
def ThrottlingRateLimiter.can_send_message
    (s : ThrottlingRateLimiter) (user_id : String) (current_time : ℚ) : Bool :=
  match s.user_last_message_time user_id with
  | none => true
  | some last_time => decide (s.min_interval ≤ current_time - last_time)

/-- Embedding of `ThrottlingRateLimiter.record_message`.  `t1` is the
reading taken inside the nested `can_send_message` call (used for the
check); `t2` is the later `time.time()` reading that gets stored. -/
def ThrottlingRateLimiter.record_message
    (s : ThrottlingRateLimiter) (user_id : String) (t1 t2 : ℚ) :
    Bool × ThrottlingRateLimiter :=
  if s.can_send_message user_id t1 then
    (true, { s with user_last_message_time := fun u =>
        if u = user_id then some t2 else s.user_last_message_time u })
  else
    (false, s)

/-- Embedding of `ThrottlingRateLimiter.time_until_next_allowed`;
`current_time` is the `time.time()` reading of the method.  No mutation,
so only the wait is returned. -/
def ThrottlingRateLimiter.time_until_next_allowed
    (s : ThrottlingRateLimiter) (user_id : String) (current_time : ℚ) : ℚ :=
  match s.user_last_message_time user_id with
  | none => 0
  | some last_time => max 0 (s.min_interval - (current_time - last_time))

/-! ### Concrete states used to instantiate the theorems on explicit inputs -/

/-- Sliding-window limiter with `window_size = 10`, `max_requests = 1` and no
tracked users. -/
def swEmpty : SlidingWindowRateLimiter := ⟨10, 1, fun _ => none⟩

/-- Sliding-window limiter with `window_size = 10`, `max_requests = 1` and one
admitted timestamp `0` for user `"u"`. -/
def swOne : SlidingWindowRateLimiter :=
  ⟨10, 1, fun v => if v = "u" then some [0] else none⟩

/-- Sliding-window limiter with `window_size = 10`, `max_requests = 1` and two
timestamps `0, 5` for user `"u"`. -/
def swPair : SlidingWindowRateLimiter :=
  ⟨10, 1, fun v => if v = "u" then some [0, 5] else none⟩

/-- Sliding-window limiter with the unvalidated configuration
`max_requests = 0` and no tracked users. -/
def swZeroCap : SlidingWindowRateLimiter := ⟨10, 0, fun _ => none⟩

/-- Throttling limiter with `min_interval = 10` and no tracked users. -/
def thEmpty : ThrottlingRateLimiter := ⟨10, fun _ => none⟩

/-- Throttling limiter with `min_interval = 10` and last message time `0` for
user `"u"`. -/
def thOne : ThrottlingRateLimiter :=
  ⟨10, fun v => if v = "u" then some 0 else none⟩

/-! ### Lemmas about `dropOld` and `countGE` -/

theorem dropOld_sublist (W t : ℚ) (l : List ℚ) : (dropOld W t l).Sublist l := by
  induction l with
  | nil => simp [dropOld]
  | cons x rest ih =>
      simp only [dropOld]
      split
      · exact ih.trans (List.sublist_cons_self x rest)
      · exact List.Sublist.refl _

theorem dropOld_length_le (W t : ℚ) (l : List ℚ) :
    (dropOld W t l).length ≤ l.length :=
  (dropOld_sublist W t l).length_le

theorem dropOld_absorb (W : ℚ) {t1 t2 : ℚ} (h : t1 ≤ t2) (l : List ℚ) :
    dropOld W t2 (dropOld W t1 l) = dropOld W t2 l := by
  induction l with
  | nil => rfl
  | cons x rest ih =>
      by_cases hx : x ≤ t1 - W
      · have hx2 : x ≤ t2 - W := le_trans hx (by linarith)
        simp only [dropOld, if_pos hx, if_pos hx2, ih]
      · simp only [dropOld, if_neg hx]

theorem exists_dropOld_eq_append (W t : ℚ) (l : List ℚ) :
    ∃ dr, l = dr ++ dropOld W t l ∧ ∀ x ∈ dr, x ≤ t - W := by
  induction l with
  | nil => exact ⟨[], rfl, by simp⟩
  | cons x rest ih =>
      by_cases hx : x ≤ t - W
      · obtain ⟨dr, hdr, hmem⟩ := ih
        refine ⟨x :: dr, ?_, ?_⟩
        · simp only [dropOld, if_pos hx, List.cons_append]
          exact congrArg (x :: ·) hdr
        · intro y hy
          rcases List.mem_cons.mp hy with rfl | hy
          · exact hx
          · exact hmem y hy
      · exact ⟨[], by simp [dropOld, if_neg hx], by simp⟩

theorem countGE_le_length (a : ℚ) (l : List ℚ) : countGE a l ≤ l.length :=
  List.length_filter_le _ l

theorem countGE_nil (a : ℚ) : countGE a [] = 0 := rfl

theorem countGE_cons (a x : ℚ) (l : List ℚ) :
    countGE a (x :: l) = (if a ≤ x then 1 else 0) + countGE a l := by
  by_cases hx : a ≤ x <;> simp [countGE, List.filter_cons, hx, Nat.add_comm]

theorem countGE_append_singleton (a x : ℚ) (l : List ℚ) :
    countGE a (l ++ [x]) = countGE a l + (if a ≤ x then 1 else 0) := by
  by_cases hx : a ≤ x <;> simp [countGE, List.filter_append, List.filter_cons, hx]

theorem countGE_dropOld {W t a : ℚ} (h : t - W < a) (l : List ℚ) :
    countGE a (dropOld W t l) = countGE a l := by
  induction l with
  | nil => rfl
  | cons x rest ih =>
      by_cases hx : x ≤ t - W
      · have hax : ¬ a ≤ x := by linarith
        simp only [dropOld, if_pos hx, ih, countGE_cons, if_neg hax, Nat.zero_add]
      · simp only [dropOld, if_neg hx]

theorem ne_nil_of_countGE_pos {a : ℚ} {l : List ℚ} (h : 0 < countGE a l) : l ≠ [] := by
  intro hl
  subst hl
  simp [countGE_nil] at h

theorem mem_dropOld_gt {W t x : ℚ} {l : List ℚ} (hs : List.Sorted (· ≤ ·) l)
    (hx : x ∈ dropOld W t l) : t - W < x := by
  induction l with
  | nil => simp [dropOld] at hx
  | cons y rest ih =>
      by_cases hy : y ≤ t - W
      · simp only [dropOld, if_pos hy] at hx
        exact ih hs.of_cons hx
      · simp only [dropOld, if_neg hy] at hx
        push_neg at hy
        rcases List.mem_cons.mp hx with rfl | hx
        · exact hy
        · exact lt_of_lt_of_le hy ((List.sorted_cons.mp hs).1 x hx)

/-! ### Characterisation lemmas for the sliding-window operations -/

@[simp]
theorem cleanup_window_window_size (s : SlidingWindowRateLimiter) (u : String) (t : ℚ) :
    (s.cleanup_window u t).window_size = s.window_size := by
  unfold SlidingWindowRateLimiter.cleanup_window
  cases s.users_requests u <;> dsimp only <;> try rfl
  split <;> rfl

@[simp]
theorem cleanup_window_max_requests (s : SlidingWindowRateLimiter) (u : String) (t : ℚ) :
    (s.cleanup_window u t).max_requests = s.max_requests := by
  unfold SlidingWindowRateLimiter.cleanup_window
  cases s.users_requests u <;> dsimp only <;> try rfl
  split <;> rfl

theorem cleanup_window_lookup_self (s : SlidingWindowRateLimiter) (u : String) (t : ℚ) :
    (s.cleanup_window u t).users_requests u =
      if dropOld s.window_size t (s.userList u) = [] then none
      else some (dropOld s.window_size t (s.userList u)) := by
  unfold SlidingWindowRateLimiter.cleanup_window SlidingWindowRateLimiter.userList
  cases h : s.users_requests u with
  | none => simp [h, dropOld]
  | some w =>
      dsimp only [Option.getD]
      split
      · simp_all
      · simp_all

theorem cleanup_window_lookup_ne (s : SlidingWindowRateLimiter) {u v : String} (t : ℚ)
    (hvu : v ≠ u) :
    (s.cleanup_window u t).users_requests v = s.users_requests v := by
  unfold SlidingWindowRateLimiter.cleanup_window
  cases h : s.users_requests u with
  | none => rfl
  | some w =>
      dsimp only
      split <;> simp [hvu]

theorem cleanup_window_userList (s : SlidingWindowRateLimiter) (u : String) (t : ℚ) :
    (s.cleanup_window u t).userList u = dropOld s.window_size t (s.userList u) := by
  unfold SlidingWindowRateLimiter.userList
  rw [cleanup_window_lookup_self]
  split <;> simp_all [SlidingWindowRateLimiter.userList]

theorem can_send_message_snd (s : SlidingWindowRateLimiter) (u : String) (t : ℚ) :
    (s.can_send_message u t).2 = s.cleanup_window u t := by
  unfold SlidingWindowRateLimiter.can_send_message
  cases h : (s.cleanup_window u t).users_requests u <;> simp [h]

theorem can_send_message_fst (s : SlidingWindowRateLimiter) (u : String) (t : ℚ) :
    (s.can_send_message u t).1 =
      (decide (dropOld s.window_size t (s.userList u) = []) ||
       decide (((dropOld s.window_size t (s.userList u)).length : ℤ) < s.max_requests)) := by
  unfold SlidingWindowRateLimiter.can_send_message
  dsimp only
  rw [cleanup_window_lookup_self]
  by_cases hnil : dropOld s.window_size t (s.userList u) = []
  · simp [hnil]
  · simp [hnil]

theorem record_message_fst (s : SlidingWindowRateLimiter) (u : String) (t1 t2 : ℚ) :
    (s.record_message u t1 t2).1 =
      (decide (prunedTwice s u t1 t2 = []) ||
       decide (((prunedTwice s u t1 t2).length : ℤ) < s.max_requests)) := by
  unfold SlidingWindowRateLimiter.record_message
  dsimp only
  rw [can_send_message_fst, cleanup_window_userList, cleanup_window_window_size,
    cleanup_window_max_requests]
  split <;> simp_all [prunedTwice]

@[simp]
theorem record_message_window_size (s : SlidingWindowRateLimiter) (u : String) (t1 t2 : ℚ) :
    (s.record_message u t1 t2).2.window_size = s.window_size := by
  unfold SlidingWindowRateLimiter.record_message
  dsimp only
  rw [can_send_message_snd]
  split <;> simp

@[simp]
theorem record_message_max_requests (s : SlidingWindowRateLimiter) (u : String) (t1 t2 : ℚ) :
    (s.record_message u t1 t2).2.max_requests = s.max_requests := by
  unfold SlidingWindowRateLimiter.record_message
  dsimp only
  rw [can_send_message_snd]
  split <;> simp

theorem record_message_lookup_ne (s : SlidingWindowRateLimiter) {u v : String} (t1 t2 : ℚ)
    (hvu : v ≠ u) :
    (s.record_message u t1 t2).2.users_requests v = s.users_requests v := by
  unfold SlidingWindowRateLimiter.record_message
  dsimp only
  rw [can_send_message_snd]
  split
  · simp only [hvu, if_false, if_neg hvu]
    rw [cleanup_window_lookup_ne _ _ hvu, cleanup_window_lookup_ne _ _ hvu]
  · rw [cleanup_window_lookup_ne _ _ hvu, cleanup_window_lookup_ne _ _ hvu]

theorem cleanup_cleanup_userList (s : SlidingWindowRateLimiter) (u : String) (t1 t2 : ℚ) :
    ((s.cleanup_window u t1).cleanup_window u t2).userList u = prunedTwice s u t1 t2 := by
  rw [cleanup_window_userList, cleanup_window_userList, cleanup_window_window_size]
  rfl

theorem record_message_lookup_self_of_true (s : SlidingWindowRateLimiter) (u : String)
    (t1 t2 : ℚ) (h : (s.record_message u t1 t2).1 = true) :
    (s.record_message u t1 t2).2.users_requests u =
      some (prunedTwice s u t1 t2 ++ [t1]) := by
  by_cases hc : ((s.cleanup_window u t1).can_send_message u t2).1 = true
  · unfold SlidingWindowRateLimiter.record_message
    dsimp only
    rw [if_pos hc, can_send_message_snd]
    dsimp only
    rw [if_pos rfl]
    congr 2
    rw [← cleanup_cleanup_userList s u t1 t2]
    rfl
  · exfalso
    apply hc
    unfold SlidingWindowRateLimiter.record_message at h
    dsimp only at h
    rw [if_neg hc] at h
    exact absurd h (by simp)

theorem record_message_lookup_self_of_false (s : SlidingWindowRateLimiter) (u : String)
    (t1 t2 : ℚ) (h : (s.record_message u t1 t2).1 = false) :
    (s.record_message u t1 t2).2.users_requests u =
      (if prunedTwice s u t1 t2 = [] then none else some (prunedTwice s u t1 t2)) := by
  by_cases hc : ((s.cleanup_window u t1).can_send_message u t2).1 = true
  · exfalso
    unfold SlidingWindowRateLimiter.record_message at h
    dsimp only at h
    rw [if_pos hc] at h
    exact absurd h (by simp)
  · unfold SlidingWindowRateLimiter.record_message
    dsimp only
    rw [if_neg hc, can_send_message_snd]
    rw [cleanup_window_lookup_self, cleanup_window_userList, cleanup_window_window_size]
    rfl

theorem record_message_userList_self_of_true (s : SlidingWindowRateLimiter) (u : String)
    (t1 t2 : ℚ) (h : (s.record_message u t1 t2).1 = true) :
    (s.record_message u t1 t2).2.userList u = prunedTwice s u t1 t2 ++ [t1] := by
  unfold SlidingWindowRateLimiter.userList
  rw [record_message_lookup_self_of_true s u t1 t2 h]
  rfl

theorem record_message_userList_self_of_false (s : SlidingWindowRateLimiter) (u : String)
    (t1 t2 : ℚ) (h : (s.record_message u t1 t2).1 = false) :
    (s.record_message u t1 t2).2.userList u = prunedTwice s u t1 t2 := by
  unfold SlidingWindowRateLimiter.userList
  rw [record_message_lookup_self_of_false s u t1 t2 h]
  split <;> simp_all

theorem record_message_atomic_fst (s : SlidingWindowRateLimiter) (u : String) (t : ℚ) :
    (s.record_message_atomic u t).1 =
      (decide (dropOld s.window_size t (s.userList u) = []) ||
       decide (((dropOld s.window_size t (s.userList u)).length : ℤ) < s.max_requests)) := by
  unfold SlidingWindowRateLimiter.record_message_atomic
  dsimp only
  rw [cleanup_window_lookup_self]
  by_cases hnil : dropOld s.window_size t (s.userList u) = []
  · simp [hnil]
  · simp only [hnil, if_neg hnil, if_false, Bool.false_or, decide_eq_false hnil]
    simp only [cleanup_window_max_requests]
    split <;> simp_all

theorem record_message_atomic_lookup_self_of_true (s : SlidingWindowRateLimiter) (u : String)
    (t : ℚ) (h : (s.record_message_atomic u t).1 = true) :
    (s.record_message_atomic u t).2.users_requests u =
      some (dropOld s.window_size t (s.userList u) ++ [t]) := by
  unfold SlidingWindowRateLimiter.record_message_atomic at h ⊢
  dsimp only at h ⊢
  split at h
  · next hc =>
      rw [if_pos hc]
      dsimp only
      rw [if_pos rfl]
      congr 2
      rw [← cleanup_window_userList s u t]
      rfl
  · next hc => simp_all

theorem record_message_atomic_lookup_self_of_false (s : SlidingWindowRateLimiter) (u : String)
    (t : ℚ) (h : (s.record_message_atomic u t).1 = false) :
    (s.record_message_atomic u t).2.users_requests u =
      (if dropOld s.window_size t (s.userList u) = [] then none
       else some (dropOld s.window_size t (s.userList u))) := by
  unfold SlidingWindowRateLimiter.record_message_atomic at h ⊢
  dsimp only at h ⊢
  split at h
  · next hc => simp_all
  · next hc =>
      rw [if_neg hc]
      dsimp only
      rw [cleanup_window_lookup_self]

theorem record_message_atomic_lookup_ne (s : SlidingWindowRateLimiter) {u v : String} (t : ℚ)
    (hvu : v ≠ u) :
    (s.record_message_atomic u t).2.users_requests v = s.users_requests v := by
  unfold SlidingWindowRateLimiter.record_message_atomic
  dsimp only
  split
  · dsimp only
    rw [if_neg hvu, cleanup_window_lookup_ne _ _ hvu]
  · exact cleanup_window_lookup_ne _ _ hvu

@[simp]
theorem record_message_atomic_window_size (s : SlidingWindowRateLimiter) (u : String) (t : ℚ) :
    (s.record_message_atomic u t).2.window_size = s.window_size := by
  unfold SlidingWindowRateLimiter.record_message_atomic
  dsimp only
  split <;> simp

@[simp]
theorem record_message_atomic_max_requests (s : SlidingWindowRateLimiter) (u : String) (t : ℚ) :
    (s.record_message_atomic u t).2.max_requests = s.max_requests := by
  unfold SlidingWindowRateLimiter.record_message_atomic
  dsimp only
  split <;> simp

theorem waitF_nonneg (W : ℚ) (m : ℤ) (t : ℚ) (l : List ℚ) : 0 ≤ waitF W m t l := by
  cases l with
  | nil => simp [waitF]
  | cons e rest =>
      simp only [waitF]
      split
      · exact le_refl 0
      · exact le_max_right _ _

theorem waitF_eq_zero_of_length_lt {m : ℤ} {l : List ℚ} (W t : ℚ)
    (h : (l.length : ℤ) < m) : waitF W m t l = 0 := by
  cases l with
  | nil => rfl
  | cons e rest => simp only [waitF, if_pos h]

theorem time_until_fst (s : SlidingWindowRateLimiter) (u : String) (t : ℚ) :
    (s.time_until_next_allowed u t).1 =
      waitF s.window_size s.max_requests t (dropOld s.window_size t (s.userList u)) := by
  unfold SlidingWindowRateLimiter.time_until_next_allowed
  cases h0 : s.users_requests u with
  | none =>
      have : s.userList u = [] := by simp [SlidingWindowRateLimiter.userList, h0]
      simp [this, dropOld, waitF]
  | some w =>
      dsimp only
      rw [cleanup_window_lookup_self]
      by_cases hnil : dropOld s.window_size t (s.userList u) = []
      · simp [hnil, waitF]
      · rw [if_neg hnil]
        dsimp only
        rw [cleanup_window_max_requests, cleanup_window_window_size]
        obtain ⟨e, rest, hrw⟩ : ∃ e rest, dropOld s.window_size t (s.userList u) = e :: rest := by
          cases hd : dropOld s.window_size t (s.userList u) with
          | nil => exact absurd hd hnil
          | cons e rest => exact ⟨e, rest, rfl⟩
        rw [hrw]
        simp only [waitF, List.headI]
        split <;> rfl

theorem time_until_lookup_ne (s : SlidingWindowRateLimiter) {u v : String} (t : ℚ)
    (hvu : v ≠ u) :
    (s.time_until_next_allowed u t).2.users_requests v = s.users_requests v := by
  unfold SlidingWindowRateLimiter.time_until_next_allowed
  cases h0 : s.users_requests u with
  | none => rfl
  | some w =>
      dsimp only
      cases h1 : (s.cleanup_window u t).users_requests u with
      | none => exact cleanup_window_lookup_ne _ _ hvu
      | some window =>
          dsimp only
          split
          · exact cleanup_window_lookup_ne _ _ hvu
          · exact cleanup_window_lookup_ne _ _ hvu

/-! ### Characterisation lemmas for the throttling operations -/

theorem throttle_record_fst (s : ThrottlingRateLimiter) (u : String) (t1 t2 : ℚ) :
    (s.record_message u t1 t2).1 = s.can_send_message u t1 := by
  unfold ThrottlingRateLimiter.record_message
  split <;> simp_all

theorem throttle_record_lookup_self_of_true (s : ThrottlingRateLimiter) (u : String)
    (t1 t2 : ℚ) (h : (s.record_message u t1 t2).1 = true) :
    (s.record_message u t1 t2).2.user_last_message_time u = some t2 := by
  unfold ThrottlingRateLimiter.record_message at h ⊢
  split at h <;> simp_all

theorem throttle_record_snd_of_false (s : ThrottlingRateLimiter) (u : String)
    (t1 t2 : ℚ) (h : (s.record_message u t1 t2).1 = false) :
    (s.record_message u t1 t2).2 = s := by
  unfold ThrottlingRateLimiter.record_message at h ⊢
  split at h <;> simp_all

theorem throttle_record_lookup_ne (s : ThrottlingRateLimiter) {u v : String} (t1 t2 : ℚ)
    (hvu : v ≠ u) :
    (s.record_message u t1 t2).2.user_last_message_time v = s.user_last_message_time v := by
  unfold ThrottlingRateLimiter.record_message
  split
  · simp [hvu]
  · rfl

@[simp]
theorem throttle_record_min_interval (s : ThrottlingRateLimiter) (u : String) (t1 t2 : ℚ) :
    (s.record_message u t1 t2).2.min_interval = s.min_interval := by
  unfold ThrottlingRateLimiter.record_message
  split <;> rfl

/-! ### Lemmas about `runRecord` -/

theorem runRecord_nil (u : String) (s : SlidingWindowRateLimiter) :
    runRecord u s [] = ([], s) := rfl

theorem runRecord_cons (u : String) (s : SlidingWindowRateLimiter) (c : ℚ × ℚ)
    (rest : List (ℚ × ℚ)) :
    runRecord u s (c :: rest) =
      ((s.record_message u c.1 c.2).1 :: (runRecord u (s.record_message u c.1 c.2).2 rest).1,
       (runRecord u (s.record_message u c.1 c.2).2 rest).2) := rfl

@[simp]
theorem runRecord_window_size (u : String) (calls : List (ℚ × ℚ)) :
    ∀ s : SlidingWindowRateLimiter, (runRecord u s calls).2.window_size = s.window_size := by
  induction calls with
  | nil => intro s; rfl
  | cons c rest ih =>
      intro s
      rw [runRecord_cons]
      dsimp only
      rw [ih, record_message_window_size]

@[simp]
theorem runRecord_max_requests (u : String) (calls : List (ℚ × ℚ)) :
    ∀ s : SlidingWindowRateLimiter, (runRecord u s calls).2.max_requests = s.max_requests := by
  induction calls with
  | nil => intro s; rfl
  | cons c rest ih =>
      intro s
      rw [runRecord_cons]
      dsimp only
      rw [ih, record_message_max_requests]

/-! ### Counting lemmas used for the sliding-window capacity bound -/

theorem countGE_prunedTwice {a t1 t2 : ℚ} (s : SlidingWindowRateLimiter) (u : String)
    (h1 : t1 < a + s.window_size) (h2 : t2 < a + s.window_size) :
    countGE a (prunedTwice s u t1 t2) = countGE a (s.userList u) := by
  unfold prunedTwice
  rw [countGE_dropOld (by linarith), countGE_dropOld (by linarith)]

theorem record_message_countGE_of_true {a t1 t2 : ℚ} (s : SlidingWindowRateLimiter)
    (u : String) (h1 : t1 < a + s.window_size) (h2 : t2 < a + s.window_size) (ha : a ≤ t1)
    (h : (s.record_message u t1 t2).1 = true) :
    countGE a ((s.record_message u t1 t2).2.userList u) = countGE a (s.userList u) + 1 := by
  rw [record_message_userList_self_of_true s u t1 t2 h, countGE_append_singleton,
    if_pos ha, countGE_prunedTwice s u h1 h2]

theorem record_message_countGE_of_false {a t1 t2 : ℚ} (s : SlidingWindowRateLimiter)
    (u : String) (h1 : t1 < a + s.window_size) (h2 : t2 < a + s.window_size)
    (h : (s.record_message u t1 t2).1 = false) :
    countGE a ((s.record_message u t1 t2).2.userList u) = countGE a (s.userList u) := by
  rw [record_message_userList_self_of_false s u t1 t2 h, countGE_prunedTwice s u h1 h2]

theorem record_message_bound_of_true {a t1 t2 : ℚ} (s : SlidingWindowRateLimiter)
    (u : String) (h1 : t1 < a + s.window_size) (h2 : t2 < a + s.window_size)
    (hmax : 1 ≤ s.max_requests) (h : (s.record_message u t1 t2).1 = true) :
    (countGE a (s.userList u) : ℤ) + 1 ≤ s.max_requests := by
  have hfst := record_message_fst s u t1 t2
  rw [h] at hfst
  have hor : prunedTwice s u t1 t2 = [] ∨
      ((prunedTwice s u t1 t2).length : ℤ) < s.max_requests := by
    rcases Bool.or_eq_true_iff.mp hfst.symm with hl | hl
    · exact Or.inl (of_decide_eq_true hl)
    · exact Or.inr (of_decide_eq_true hl)
  have hcnt := countGE_prunedTwice s u h1 h2
  rcases hor with hnil | hlt
  · rw [hnil] at hcnt
    rw [← hcnt]
    simpa [countGE_nil] using hmax
  · have hle : countGE a (prunedTwice s u t1 t2) ≤ (prunedTwice s u t1 t2).length :=
      countGE_le_length _ _
    rw [← hcnt]
    omega

theorem record_message_false_of_saturated {a t1 t2 : ℚ} (s : SlidingWindowRateLimiter)
    (u : String) (hmax : 1 ≤ s.max_requests)
    (hsat : s.max_requests ≤ (countGE a (s.userList u) : ℤ))
    (h1 : t1 < a + s.window_size) (h2 : t2 < a + s.window_size) :
    (s.record_message u t1 t2).1 = false := by
  have hcnt := countGE_prunedTwice s u h1 h2
  have hpos : 0 < countGE a (prunedTwice s u t1 t2) := by omega
  have hne : prunedTwice s u t1 t2 ≠ [] := ne_nil_of_countGE_pos hpos
  have hlen : ¬ (((prunedTwice s u t1 t2).length : ℤ) < s.max_requests) := by
    have := countGE_le_length a (prunedTwice s u t1 t2)
    omega
  rw [record_message_fst]
  simp [hne, hlen]

theorem runRecord_countGE (u : String) (a : ℚ) (calls : List (ℚ × ℚ)) :
    ∀ s : SlidingWindowRateLimiter,
      (∀ c ∈ calls, (a ≤ c.1 ∧ c.1 < a + s.window_size) ∧
        (a ≤ c.2 ∧ c.2 < a + s.window_size)) →
      countGE a ((runRecord u s calls).2.userList u)
        = countGE a (s.userList u) + numTrue (runRecord u s calls).1 := by
  induction calls with
  | nil => intro s _; simp [runRecord_nil, numTrue]
  | cons c rest ih =>
      intro s hspan
      obtain ⟨⟨ha1, hb1⟩, ⟨ha2, hb2⟩⟩ := hspan c (List.mem_cons_self c rest)
      have hrest : ∀ d ∈ rest, (a ≤ d.1 ∧ d.1 < a + (s.record_message u c.1 c.2).2.window_size) ∧
          (a ≤ d.2 ∧ d.2 < a + (s.record_message u c.1 c.2).2.window_size) := by
        intro d hd
        rw [record_message_window_size]
        exact hspan d (List.mem_cons_of_mem c hd)
      rw [runRecord_cons]
      dsimp only
      rw [ih _ hrest]
      cases hr : (s.record_message u c.1 c.2).1 with
      | true =>
          rw [record_message_countGE_of_true s u hb1 hb2 ha1 hr]
          simp [numTrue]
          omega
      | false =>
          rw [record_message_countGE_of_false s u hb1 hb2 hr]
          simp [numTrue]

theorem runRecord_numTrue_le (u : String) (a : ℚ) (calls : List (ℚ × ℚ)) :
    ∀ s : SlidingWindowRateLimiter, 1 ≤ s.max_requests →
      (∀ c ∈ calls, (a ≤ c.1 ∧ c.1 < a + s.window_size) ∧
        (a ≤ c.2 ∧ c.2 < a + s.window_size)) →
      (countGE a (s.userList u) : ℤ) + numTrue (runRecord u s calls).1
        ≤ max s.max_requests (countGE a (s.userList u) : ℤ) := by
  induction calls with
  | nil =>
      intro s _ _
      simp [runRecord_nil, numTrue]
  | cons c rest ih =>
      intro s hmax hspan
      obtain ⟨⟨ha1, hb1⟩, ⟨ha2, hb2⟩⟩ := hspan c (List.mem_cons_self c rest)
      have hrest : ∀ d ∈ rest, (a ≤ d.1 ∧ d.1 < a + (s.record_message u c.1 c.2).2.window_size) ∧
          (a ≤ d.2 ∧ d.2 < a + (s.record_message u c.1 c.2).2.window_size) := by
        intro d hd
        rw [record_message_window_size]
        exact hspan d (List.mem_cons_of_mem c hd)
      have hmax' : 1 ≤ (s.record_message u c.1 c.2).2.max_requests := by
        rw [record_message_max_requests]; exact hmax
      have IH := ih (s.record_message u c.1 c.2).2 hmax' hrest
      rw [record_message_max_requests] at IH
      rw [runRecord_cons]
      dsimp only
      cases hr : (s.record_message u c.1 c.2).1 with
      | true =>
          rw [record_message_countGE_of_true s u hb1 hb2 ha1 hr] at IH
          have hb := record_message_bound_of_true s u hb1 hb2 hmax hr
          have hmx : max s.max_requests ((countGE a (s.userList u) : ℤ) + 1)
              = s.max_requests := max_eq_left (by omega)
          push_cast at IH
          rw [hmx] at IH
          have hlem : (s.max_requests : ℤ) ≤ max s.max_requests (countGE a (s.userList u) : ℤ) :=
            le_max_left _ _
          simp only [numTrue]
          push_cast
          linarith
      | false =>
          rw [record_message_countGE_of_false s u hb1 hb2 hr] at IH
          simp only [numTrue]
          push_cast at IH ⊢
          linarith

/-! ### Claim theorems -/

/-- C8: for every user identifier with no entry in the limiter's mapping,
both limiters return `true` from `can_send_message`, `true` from
`record_message`, and `0.0` from `time_until_next_allowed`. -/
theorem unknown_user_defaults (s : SlidingWindowRateLimiter) (th : ThrottlingRateLimiter)
    (u : String) (t t2 : ℚ)
    (hs : s.users_requests u = none) (hth : th.user_last_message_time u = none) :
    (s.can_send_message u t).1 = true ∧
    (s.record_message u t t2).1 = true ∧
    (s.time_until_next_allowed u t).1 = 0 ∧
    th.can_send_message u t = true ∧
    (th.record_message u t t2).1 = true ∧
    th.time_until_next_allowed u t = 0 := by
  have hl : s.userList u = [] := by simp [SlidingWindowRateLimiter.userList, hs]
  have hdrop : ∀ x : ℚ, dropOld s.window_size x (s.userList u) = [] := by
    intro x; rw [hl]; rfl
  have hcs : th.can_send_message u t = true := by
    unfold ThrottlingRateLimiter.can_send_message
    rw [hth]
  refine ⟨?_, ?_, ?_, hcs, ?_, ?_⟩
  · rw [can_send_message_fst, hdrop]
    simp
  · rw [record_message_fst]
    unfold prunedTwice
    rw [hdrop]
    simp [dropOld]
  · rw [time_until_fst, hdrop]
    rfl
  · rw [throttle_record_fst, hcs]
  · unfold ThrottlingRateLimiter.time_until_next_allowed
    rw [hth]

/-- C8 witness: the defaults evaluated on the empty limiters for a fresh
user at time `3`. -/
theorem unknown_user_defaults_witness :
    (swEmpty.can_send_message "x" 3).1 = true ∧
    (swEmpty.record_message "x" 3 3).1 = true ∧
    (swEmpty.time_until_next_allowed "x" 3).1 = 0 ∧
    thEmpty.can_send_message "x" 3 = true ∧
    (thEmpty.record_message "x" 3 3).1 = true ∧
    thEmpty.time_until_next_allowed "x" 3 = 0 :=
  unknown_user_defaults swEmpty thEmpty "x" 3 3 rfl rfl

/-- C9: a user absent from the sliding-window mapping is admitted by the
no-entry short-circuit before the count check runs, for every
configuration including `max_requests = 0`: the first `record_message`
returns `true` and appends its timestamp, so the nominal capacity bound is
exceeded when `max_requests = 0`. -/
theorem first_record_always_admitted (s : SlidingWindowRateLimiter) (u : String)
    (t1 t2 : ℚ) (hs : s.users_requests u = none) :
    (s.record_message u t1 t2).1 = true ∧
    (s.record_message u t1 t2).2.users_requests u = some [t1] ∧
    (s.max_requests = 0 →
      s.max_requests < (((s.record_message u t1 t2).2.userList u).length : ℤ)) := by
  have hl : s.userList u = [] := by simp [SlidingWindowRateLimiter.userList, hs]
  have hpt : prunedTwice s u t1 t2 = [] := by
    unfold prunedTwice
    rw [hl]
    rfl
  have htrue : (s.record_message u t1 t2).1 = true := by
    rw [record_message_fst, hpt]
    simp
  refine ⟨htrue, ?_, ?_⟩
  · rw [record_message_lookup_self_of_true s u t1 t2 htrue, hpt]
    rfl
  · intro hzero
    rw [record_message_userList_self_of_true s u t1 t2 htrue, hpt, hzero]
    simp

/-- C9 witness: with `max_requests = 0` the first `record_message` for a
fresh user is admitted and stores its timestamp. -/
theorem first_record_always_admitted_witness :
    (swZeroCap.record_message "x" 2 2).1 = true ∧
    (swZeroCap.record_message "x" 2 2).2.users_requests "x" = some [2] ∧
    (swZeroCap.max_requests = 0 →
      swZeroCap.max_requests < (((swZeroCap.record_message "x" 2 2).2.userList "x").length : ℤ)) :=
  first_record_always_admitted swZeroCap "x" 2 2 rfl

/-- C10: every public operation invoked with user `u` leaves the stored
state of every other user `v ≠ u` unchanged, for both limiters.  (The
throttling `can_send_message` and `time_until_next_allowed` perform no
mutation at all in the source, which the embedding renders by returning no
state from them.) -/
theorem per_user_isolation (s : SlidingWindowRateLimiter) (th : ThrottlingRateLimiter)
    {u v : String} (t1 t2 : ℚ) (hvu : v ≠ u) :
    (s.can_send_message u t1).2.users_requests v = s.users_requests v ∧
    (s.record_message u t1 t2).2.users_requests v = s.users_requests v ∧
    (s.time_until_next_allowed u t1).2.users_requests v = s.users_requests v ∧
    (th.record_message u t1 t2).2.user_last_message_time v = th.user_last_message_time v := by
  refine ⟨?_, ?_, ?_, ?_⟩
  · rw [can_send_message_snd]
    exact cleanup_window_lookup_ne _ _ hvu
  · exact record_message_lookup_ne _ _ _ hvu
  · exact time_until_lookup_ne _ _ hvu
  · exact throttle_record_lookup_ne _ _ _ hvu

/-- C10 witness: operations for user `"u"` leave user `"x"`'s entries
unchanged on concrete states. -/
theorem per_user_isolation_witness :
    (swOne.can_send_message "u" 3).2.users_requests "x" = swOne.users_requests "x" ∧
    (swOne.record_message "u" 3 3).2.users_requests "x" = swOne.users_requests "x" ∧
    (swOne.time_until_next_allowed "u" 3).2.users_requests "x" = swOne.users_requests "x" ∧
    (thOne.record_message "u" 3 3).2.user_last_message_time "x"
      = thOne.user_last_message_time "x" :=
  per_user_isolation swOne thOne 3 3 (by decide)

/-- C2: the throttling `can_send_message` returns `true` iff the user has no
stored last-message time or the current time minus the stored last time is
at least `min_interval`; `record_message` succeeds exactly under the same
condition; and two `record_message` calls for the same user both succeed
only when the second call's check-time reading is at least `min_interval`
after the time stored by the first, a second call strictly less than
`min_interval` after an admitted one returning `false`. -/
theorem throttle_admission_condition (th : ThrottlingRateLimiter) (u : String)
    (t t1 t2 t3 t4 : ℚ) :
    (th.can_send_message u t = true ↔
      th.user_last_message_time u = none ∨
      ∃ last, th.user_last_message_time u = some last ∧ th.min_interval ≤ t - last) ∧
    ((th.record_message u t1 t2).1 = th.can_send_message u t1) ∧
    ((th.record_message u t1 t2).1 = true →
      ((((th.record_message u t1 t2).2.record_message u t3 t4).1 = true →
          th.min_interval ≤ t3 - t2) ∧
        (t3 - t2 < th.min_interval →
          ((th.record_message u t1 t2).2.record_message u t3 t4).1 = false))) := by
  refine ⟨?_, throttle_record_fst th u t1 t2, ?_⟩
  · unfold ThrottlingRateLimiter.can_send_message
    cases h : th.user_last_message_time u with
    | none => simp
    | some last => simp [h]
  · intro h1
    have hlook := throttle_record_lookup_self_of_true th u t1 t2 h1
    have hmin : (th.record_message u t1 t2).2.min_interval = th.min_interval :=
      throttle_record_min_interval th u t1 t2
    have hcs : ((th.record_message u t1 t2).2.record_message u t3 t4).1
        = decide (th.min_interval ≤ t3 - t2) := by
      rw [throttle_record_fst]
      unfold ThrottlingRateLimiter.can_send_message
      rw [hlook, hmin]
    constructor
    · intro h2
      rw [hcs] at h2
      exact of_decide_eq_true h2
    · intro hlt
      rw [hcs]
      simp only [decide_eq_false_iff_not]
      linarith

/-- C2 witness: with `min_interval = 10`, a call at `t = 5` against a last
time of `0` is refused, a recorded call at check-time `12` is admitted, and
the admitted call at stored time `13` blocks another call at `22`. -/
theorem throttle_admission_condition_witness :
    (thOne.can_send_message "u" 5 = true ↔
      thOne.user_last_message_time "u" = none ∨
      ∃ last, thOne.user_last_message_time "u" = some last ∧ thOne.min_interval ≤ 5 - last) ∧
    ((thOne.record_message "u" 12 13).1 = thOne.can_send_message "u" 12) ∧
    ((((thOne.record_message "u" 12 13).2.record_message "u" 22 22).1 = true →
        thOne.min_interval ≤ 22 - 13) ∧
      ((22 : ℚ) - 13 < thOne.min_interval →
        (((thOne.record_message "u" 12 13).2.record_message "u" 22 22).1 = false))) := by
  have h := throttle_admission_condition thOne "u" 5 12 13 22 22
  refine ⟨h.1, h.2.1, h.2.2 ?_⟩
  rw [h.2.1]
  norm_num [ThrottlingRateLimiter.can_send_message, thOne]

/-- C5: the sliding-window `time_until_next_allowed` prunes and returns `0`
when the user has no entries (before or after pruning) or fewer than
`max_requests` entries, and otherwise returns
`window_size - (now - oldest)` clamped below at `0`, the oldest timestamp
being the front of the pruned sequence; the throttling
`time_until_next_allowed` returns `0` when the user has no entry and
otherwise `max 0 (min_interval - (now - last))`; in all cases the result
is nonnegative. -/
theorem time_until_next_allowed_formula (s : SlidingWindowRateLimiter)
    (th : ThrottlingRateLimiter) (u : String) (t : ℚ) :
    0 ≤ (s.time_until_next_allowed u t).1 ∧
    0 ≤ th.time_until_next_allowed u t ∧
    (th.user_last_message_time u = none → th.time_until_next_allowed u t = 0) ∧
    (∀ last, th.user_last_message_time u = some last →
      th.time_until_next_allowed u t = max 0 (th.min_interval - (t - last))) ∧
    (s.users_requests u = none → (s.time_until_next_allowed u t).1 = 0) ∧
    ((s.cleanup_window u t).users_requests u = none →
      (s.time_until_next_allowed u t).1 = 0) ∧
    (∀ w, (s.cleanup_window u t).users_requests u = some w →
      (((w.length : ℤ) < s.max_requests → (s.time_until_next_allowed u t).1 = 0) ∧
       (s.max_requests ≤ (w.length : ℤ) →
         (s.time_until_next_allowed u t).1 = max (s.window_size - (t - w.headI)) 0))) := by
  have hth0 : 0 ≤ th.time_until_next_allowed u t := by
    unfold ThrottlingRateLimiter.time_until_next_allowed
    cases h : th.user_last_message_time u with
    | none => exact le_refl 0
    | some last => exact le_max_left 0 _
  refine ⟨?_, hth0, ?_, ?_, ?_, ?_, ?_⟩
  · rw [time_until_fst]
    exact waitF_nonneg _ _ _ _
  · intro h
    unfold ThrottlingRateLimiter.time_until_next_allowed
    rw [h]
  · intro last h
    unfold ThrottlingRateLimiter.time_until_next_allowed
    rw [h]
  · intro h
    unfold SlidingWindowRateLimiter.time_until_next_allowed
    rw [h]
  · intro h
    rw [time_until_fst]
    rw [cleanup_window_lookup_self] at h
    have hnil : dropOld s.window_size t (s.userList u) = [] := by
      by_contra hne
      rw [if_neg hne] at h
      exact Option.noConfusion h
    rw [hnil]
    rfl
  · intro w hw
    rw [cleanup_window_lookup_self] at hw
    by_cases hnil : dropOld s.window_size t (s.userList u) = []
    · rw [if_pos hnil] at hw
      exact Option.noConfusion hw
    · rw [if_neg hnil] at hw
      have hw' : dropOld s.window_size t (s.userList u) = w := by
        injection hw
      constructor
      · intro hlt
        rw [time_until_fst, hw']
        exact waitF_eq_zero_of_length_lt _ _ hlt
      · intro hge
        rw [time_until_fst, hw']
        obtain ⟨e, rest, hrw⟩ : ∃ e rest, w = e :: rest := by
          cases w with
          | nil => exact absurd hw' hnil
          | cons e rest => exact ⟨e, rest, rfl⟩
        subst hrw
        simp only [waitF, List.headI]
        rw [if_neg (by omega)]

/-- C5 witness: on a window holding timestamp `0` with `window_size = 10`,
`max_requests = 1`, the wait at time `3` is `window_size - (now - oldest)`,
and the throttling wait at time `3` after a last message at `0` is
`max 0 (min_interval - (now - last))`. -/
theorem time_until_next_allowed_formula_witness :
    (swOne.time_until_next_allowed "u" 3).1
      = max (swOne.window_size - (3 - ([(0 : ℚ)].headI))) 0 ∧
    thOne.time_until_next_allowed "u" 3 = max 0 (thOne.min_interval - (3 - 0)) := by
  have h := time_until_next_allowed_formula swOne thOne "u" 3
  constructor
  · exact (h.2.2.2.2.2.2 [0]
      (by norm_num [SlidingWindowRateLimiter.cleanup_window,
        SlidingWindowRateLimiter.userList, dropOld, swOne])).2
      (by norm_num [swOne])
  · exact h.2.2.2.1 0 (by norm_num [thOne])

/-- C4: immediately after a cleanup pass run at time `now` on a user whose
sequence is sorted ascending, every remaining timestamp `x` of that user
satisfies `x > now - window_size`, the removed timestamps form a prefix
whose elements are all `≤ now - window_size`, and the user's entry is
deleted rather than left empty; moreover a cleanup pass never creates an
empty-sequence entry for any user. -/
theorem cleanup_window_eviction_invariant (s : SlidingWindowRateLimiter) (u : String)
    (t : ℚ) :
    (∀ w, s.users_requests u = some w → List.Sorted (· ≤ ·) w →
      ((s.cleanup_window u t).users_requests u = none ∨
       ∃ w', (s.cleanup_window u t).users_requests u = some w' ∧ w' ≠ [] ∧
         (∃ dr, w = dr ++ w' ∧ ∀ x ∈ dr, x ≤ t - s.window_size) ∧
         (∀ x ∈ w', t - s.window_size < x))) ∧
    ((∀ v w, s.users_requests v = some w → w ≠ []) →
      ∀ v w, (s.cleanup_window u t).users_requests v = some w → w ≠ []) := by
  constructor
  · intro w hw hsort
    have hul : s.userList u = w := by
      simp [SlidingWindowRateLimiter.userList, hw]
    rw [cleanup_window_lookup_self, hul]
    by_cases hnil : dropOld s.window_size t w = []
    · left
      rw [if_pos hnil]
    · right
      refine ⟨dropOld s.window_size t w, by rw [if_neg hnil], hnil, ?_, ?_⟩
      · exact exists_dropOld_eq_append s.window_size t w
      · intro x hx
        exact mem_dropOld_gt hsort hx
  · intro hglob v w hv
    by_cases hvu : v = u
    · subst hvu
      rw [cleanup_window_lookup_self] at hv
      by_cases hnil : dropOld s.window_size t (s.userList v) = []
      · rw [if_pos hnil] at hv
        exact Option.noConfusion hv
      · rw [if_neg hnil] at hv
        have : dropOld s.window_size t (s.userList v) = w := by injection hv
        rw [← this]
        exact hnil
    · rw [cleanup_window_lookup_ne _ _ hvu] at hv
      exact hglob v w hv

/-- C4 witness: cleaning the sorted window `[0, 5]` (size `10`) at time `11`
keeps exactly the suffix `[5]`, removing the expired prefix `[0]`. -/
theorem cleanup_window_eviction_invariant_witness :
    (swPair.cleanup_window "u" 11).users_requests "u" = none ∨
    ∃ w', (swPair.cleanup_window "u" 11).users_requests "u" = some w' ∧ w' ≠ [] ∧
      (∃ dr, [(0 : ℚ), 5] = dr ++ w' ∧ ∀ x ∈ dr, x ≤ 11 - swPair.window_size) ∧
      (∀ x ∈ w', 11 - swPair.window_size < x) :=
  (cleanup_window_eviction_invariant swPair "u" 11).1 [0, 5]
    (by norm_num [swPair])
    (by norm_num [List.sorted_cons])

/-- C6: a `record_message` call that returns `false` leaves the user's
stored state observationally unchanged — the sliding-window limiter does
not append to the rejected user's sequence (the resulting sequence is a
sublist of the old one, shrunk only by pruning), and for both limiters
every later `time_until_next_allowed` reading (for any user, at any time
not before the call's readings) equals what it would have been without the
rejected call; the throttling limiter's state is literally unchanged. -/
theorem no_mutation_on_rejection (s : SlidingWindowRateLimiter)
    (th : ThrottlingRateLimiter) (u v : String) (t1 t2 t : ℚ)
    (h12 : t1 ≤ t2) (h2t : t2 ≤ t) :
    ((s.record_message u t1 t2).1 = false →
      ((s.record_message u t1 t2).2.userList u).Sublist (s.userList u) ∧
      ((s.record_message u t1 t2).2.time_until_next_allowed v t).1
        = (s.time_until_next_allowed v t).1) ∧
    ((th.record_message u t1 t2).1 = false → (th.record_message u t1 t2).2 = th) := by
  constructor
  · intro hrej
    have hul : (s.record_message u t1 t2).2.userList u = prunedTwice s u t1 t2 :=
      record_message_userList_self_of_false s u t1 t2 hrej
    constructor
    · rw [hul]
      exact ((dropOld_sublist _ _ _).trans (dropOld_sublist _ _ _))
    · rw [time_until_fst, time_until_fst, record_message_window_size,
        record_message_max_requests]
      by_cases hvu : v = u
      · subst hvu
        rw [hul]
        unfold prunedTwice
        rw [dropOld_absorb _ h2t, dropOld_absorb _ (h12.trans h2t)]
      · have : (s.record_message u t1 t2).2.userList v = s.userList v := by
          unfold SlidingWindowRateLimiter.userList
          rw [record_message_lookup_ne _ _ _ hvu]
        rw [this]
  · exact throttle_record_snd_of_false th u t1 t2

/-- C6 witness: the rejected call `record_message "u"` at time `1` against
a window holding timestamp `0` (capacity 1) does not change the
`time_until_next_allowed` reading at time `5`, and a rejected throttled
call leaves the throttling state unchanged. -/
theorem no_mutation_on_rejection_witness :
    ((swOne.record_message "u" 1 1).2.time_until_next_allowed "u" 5).1
      = (swOne.time_until_next_allowed "u" 5).1 ∧
    (thOne.record_message "u" 1 1).2 = thOne := by
  have h := no_mutation_on_rejection swOne thOne "u" "u" 1 1 5 (by norm_num) (by norm_num)
  refine ⟨(h.1 ?_).2, h.2 ?_⟩
  · norm_num [SlidingWindowRateLimiter.record_message,
      SlidingWindowRateLimiter.can_send_message, SlidingWindowRateLimiter.cleanup_window,
      dropOld, swOne]
  · norm_num [ThrottlingRateLimiter.record_message, ThrottlingRateLimiter.can_send_message,
      thOne]

/-- C7: for both limiters, with no new requests recorded for a user, the
wait reported by `time_until_next_allowed` is non-increasing as the clock
reading advances, and is exactly `0` once at least the previously reported
wait has elapsed.  The sliding-window half assumes the reachable-state
invariant that the user's stored sequence has at most `max_requests`
entries. -/
theorem time_until_next_allowed_monotone (s : SlidingWindowRateLimiter)
    (th : ThrottlingRateLimiter) (u : String) (t1 t2 : ℚ) (h12 : t1 ≤ t2)
    (hlen : ((s.userList u).length : ℤ) ≤ s.max_requests) :
    ((s.time_until_next_allowed u t2).1 ≤ (s.time_until_next_allowed u t1).1 ∧
      (t1 + (s.time_until_next_allowed u t1).1 ≤ t2 →
        (s.time_until_next_allowed u t2).1 = 0)) ∧
    (th.time_until_next_allowed u t2 ≤ th.time_until_next_allowed u t1 ∧
      (t1 + th.time_until_next_allowed u t1 ≤ t2 →
        th.time_until_next_allowed u t2 = 0)) := by
  constructor
  · rw [time_until_fst, time_until_fst]
    have habs : dropOld s.window_size t2 (s.userList u)
        = dropOld s.window_size t2 (dropOld s.window_size t1 (s.userList u)) :=
      (dropOld_absorb s.window_size h12 (s.userList u)).symm
    have hlen1 : (((dropOld s.window_size t1 (s.userList u)).length : ℕ) : ℤ)
        ≤ s.max_requests := by
      have := dropOld_length_le s.window_size t1 (s.userList u)
      omega
    by_cases hc : (((dropOld s.window_size t1 (s.userList u)).length : ℕ) : ℤ)
        < s.max_requests
    · have h1 : waitF s.window_size s.max_requests t1
          (dropOld s.window_size t1 (s.userList u)) = 0 :=
        waitF_eq_zero_of_length_lt _ _ hc
      have hlen2 : (((dropOld s.window_size t2 (s.userList u)).length : ℕ) : ℤ)
          < s.max_requests := by
        rw [habs]
        have := dropOld_length_le s.window_size t2 (dropOld s.window_size t1 (s.userList u))
        omega
      have h2 : waitF s.window_size s.max_requests t2
          (dropOld s.window_size t2 (s.userList u)) = 0 :=
        waitF_eq_zero_of_length_lt _ _ hlen2
      rw [h1, h2]
      exact ⟨le_refl 0, fun _ => rfl⟩
    · cases hd : dropOld s.window_size t1 (s.userList u) with
      | nil =>
          have h2 : dropOld s.window_size t2 (s.userList u) = [] := by
            rw [habs, hd]
            rfl
          rw [h2]
          exact ⟨le_refl 0, fun _ => rfl⟩
      | cons e rest =>
          rw [hd] at hc
          have hw1 : waitF s.window_size s.max_requests t1 (e :: rest)
              = max (s.window_size - (t1 - e)) 0 := by
            simp only [waitF]
            rw [if_neg hc]
          by_cases he : e ≤ t2 - s.window_size
          · have h2' : dropOld s.window_size t2 (s.userList u)
                = dropOld s.window_size t2 rest := by
              rw [habs, hd]
              simp [dropOld, if_pos he]
            have hlen2 : (((dropOld s.window_size t2 (s.userList u)).length : ℕ) : ℤ)
                < s.max_requests := by
              rw [h2']
              have h3 := dropOld_length_le s.window_size t2 rest
              rw [hd] at hlen1
              simp only [List.length_cons] at hlen1
              omega
            have h2 : waitF s.window_size s.max_requests t2
                (dropOld s.window_size t2 (s.userList u)) = 0 :=
              waitF_eq_zero_of_length_lt _ _ hlen2
            rw [h2, hw1]
            exact ⟨le_max_right _ 0, fun _ => rfl⟩
          · have h2' : dropOld s.window_size t2 (s.userList u) = e :: rest := by
              rw [habs, hd]
              simp [dropOld, if_neg he]
            have hw2 : waitF s.window_size s.max_requests t2 (e :: rest)
                = max (s.window_size - (t2 - e)) 0 := by
              simp only [waitF]
              rw [if_neg hc]
            rw [h2', hw1, hw2]
            push_neg at he
            constructor
            · exact max_le_max (by linarith) (le_refl 0)
            · intro hyp
              exfalso
              have hle : s.window_size - (t1 - e) ≤ max (s.window_size - (t1 - e)) 0 :=
                le_max_left _ _
              linarith
  · unfold ThrottlingRateLimiter.time_until_next_allowed
    cases h : th.user_last_message_time u with
    | none => exact ⟨le_refl 0, fun _ => rfl⟩
    | some last =>
        constructor
        · exact max_le_max (le_refl 0) (by linarith)
        · intro hyp
          have h1 : th.min_interval - (t1 - last)
              ≤ max 0 (th.min_interval - (t1 - last)) := le_max_right _ _
          have h2 : th.min_interval - (t2 - last) ≤ 0 := by linarith
          exact max_eq_left h2

/-- C7 witness: for a window holding timestamp `0` (size 10, capacity 1)
the wait shrinks from time `3` to time `12` and reaches `0` at `12`, and
likewise for the throttling limiter with last time `0`. -/
theorem time_until_next_allowed_monotone_witness :
    (swOne.time_until_next_allowed "u" 12).1 ≤ (swOne.time_until_next_allowed "u" 3).1 ∧
    (swOne.time_until_next_allowed "u" 12).1 = 0 ∧
    thOne.time_until_next_allowed "u" 12 ≤ thOne.time_until_next_allowed "u" 3 ∧
    thOne.time_until_next_allowed "u" 12 = 0 := by
  have h := time_until_next_allowed_monotone swOne thOne "u" 3 12 (by norm_num)
    (by norm_num [SlidingWindowRateLimiter.userList, swOne])
  refine ⟨h.1.1, h.1.2 ?_, h.2.1, h.2.2 ?_⟩
  · norm_num [SlidingWindowRateLimiter.time_until_next_allowed,
      SlidingWindowRateLimiter.cleanup_window, dropOld, swOne]
  · norm_num [ThrottlingRateLimiter.time_until_next_allowed, thOne]

/-- C3 counterexample: with a window of size `10`, capacity `1`, and one
stored timestamp `0` for user `"u"`, a `record_message` call whose two
clock readings are `19/2` and `21/2` admits the message and records the
timestamp `19/2`, while the single-snapshot atomic implementation run at
the first reading `19/2` rejects, and run at the second reading `21/2`
records `21/2`: no single time snapshot taken during the call reproduces
the pair (admitted, recorded timestamp `19/2`), so check and append do not
share one timestamp basis. -/
theorem record_message_two_readings_differ_from_atomic :
    (swOne.record_message "u" (19/2) (21/2)).1 = true ∧
    (swOne.record_message "u" (19/2) (21/2)).2.users_requests "u" = some [19/2] ∧
    (swOne.record_message_atomic "u" (19/2)).1 = false ∧
    (swOne.record_message_atomic "u" (21/2)).1 = true ∧
    (swOne.record_message_atomic "u" (21/2)).2.users_requests "u" = some [21/2] := by
  refine ⟨?_, ?_, ?_, ?_, ?_⟩ <;>
    norm_num [SlidingWindowRateLimiter.record_message,
      SlidingWindowRateLimiter.record_message_atomic,
      SlidingWindowRateLimiter.can_send_message,
      SlidingWindowRateLimiter.cleanup_window, dropOld, swOne]

/-- C3 (amended): when the two clock readings of a `record_message` call
coincide, the reference re-derive-and-re-check implementation is equal as
a state transformer to the single-snapshot atomic implementation (same
decision, same recorded timestamp, same state); with distinct readings the
check uses the later reading while the appended timestamp is the earlier
one, and the behaviours can differ (see the counterexample). -/
theorem record_message_coincident_readings_eq_atomic (s : SlidingWindowRateLimiter)
    (u : String) (t : ℚ) :
    s.record_message u t t = s.record_message_atomic u t := by
  have habs : prunedTwice s u t t = dropOld s.window_size t (s.userList u) :=
    dropOld_absorb _ le_rfl _
  have hfst : (s.record_message u t t).1 = (s.record_message_atomic u t).1 := by
    rw [record_message_fst, record_message_atomic_fst, habs]
  have hsnd : (s.record_message u t t).2 = (s.record_message_atomic u t).2 := by
    apply SlidingWindowRateLimiter.ext
    · rw [record_message_window_size, record_message_atomic_window_size]
    · rw [record_message_max_requests, record_message_atomic_max_requests]
    · funext v
      by_cases hvu : v = u
      · subst hvu
        cases hr : (s.record_message v t t).1 with
        | true =>
            have hr' : (s.record_message_atomic v t).1 = true := by
              rw [← hfst]; exact hr
            rw [record_message_lookup_self_of_true _ _ _ _ hr,
              record_message_atomic_lookup_self_of_true _ _ _ hr', habs]
        | false =>
            have hr' : (s.record_message_atomic v t).1 = false := by
              rw [← hfst]; exact hr
            rw [record_message_lookup_self_of_false _ _ _ _ hr,
              record_message_atomic_lookup_self_of_false _ _ _ hr', habs]
      · rw [record_message_lookup_ne _ _ _ hvu, record_message_atomic_lookup_ne _ _ hvu]
  exact Prod.ext hfst hsnd

/-- C1: for every user and every sequence of `record_message` calls whose
clock readings all lie within one span `[a, a + window_size)`, at most
`max_requests` of those calls return `true`, and once `max_requests` calls
have returned `true` the next call within the span returns `false`
(assuming `max_requests ≥ 1`; the bound holds from any starting state). -/
theorem sliding_window_capacity (s : SlidingWindowRateLimiter) (u : String) (a : ℚ)
    (calls : List (ℚ × ℚ)) (hmax : 1 ≤ s.max_requests)
    (hspan : ∀ c ∈ calls, (a ≤ c.1 ∧ c.1 < a + s.window_size) ∧
      (a ≤ c.2 ∧ c.2 < a + s.window_size)) :
    ((numTrue (runRecord u s calls).1 : ℤ) ≤ s.max_requests) ∧
    (∀ pre c post, calls = pre ++ c :: post →
      (numTrue (runRecord u s pre).1 : ℤ) = s.max_requests →
      ((runRecord u s pre).2.record_message u c.1 c.2).1 = false) := by
  constructor
  · have h2 := runRecord_numTrue_le u a calls s hmax hspan
    rcases le_total ((countGE a (s.userList u) : ℤ)) s.max_requests with h | h
    · rw [max_eq_left h] at h2
      omega
    · rw [max_eq_right h] at h2
      omega
  · intro pre c post hcalls hcount
    have hspanPre : ∀ d ∈ pre, (a ≤ d.1 ∧ d.1 < a + s.window_size) ∧
        (a ≤ d.2 ∧ d.2 < a + s.window_size) := by
      intro d hd
      exact hspan d (hcalls ▸ List.mem_append_left _ hd)
    have hg := runRecord_countGE u a pre s hspanPre
    have hcmem : c ∈ calls := hcalls ▸ List.mem_append_right _ (List.mem_cons_self c post)
    obtain ⟨⟨hc1a, hc1b⟩, ⟨hc2a, hc2b⟩⟩ := hspan c hcmem
    refine @record_message_false_of_saturated a c.1 c.2 _ u ?_ ?_ ?_ ?_
    · rw [runRecord_max_requests]
      exact hmax
    · rw [runRecord_max_requests]
      omega
    · rw [runRecord_window_size]
      exact hc1b
    · rw [runRecord_window_size]
      exact hc2b

/-- C1 witness: with capacity 1 and window 10, the call sequence at times
`0` then `1` admits exactly one message, and after the one admitted call
the next call in the span is refused. -/
theorem sliding_window_capacity_witness :
    (numTrue (runRecord "1" swEmpty [(0, 0), (1, 1)]).1 : ℤ) ≤ swEmpty.max_requests ∧
    ((runRecord "1" swEmpty [(0, 0)]).2.record_message "1" 1 1).1 = false := by
  have h := sliding_window_capacity swEmpty "1" 0 [(0, 0), (1, 1)]
    (by norm_num [swEmpty])
    (by
      intro c hc
      simp only [List.mem_cons, List.not_mem_nil, or_false] at hc
      rcases hc with rfl | rfl <;> norm_num [swEmpty])
  refine ⟨h.1, h.2 [(0, 0)] (1, 1) [] rfl ?_⟩
  norm_num [runRecord, numTrue, SlidingWindowRateLimiter.record_message,
    SlidingWindowRateLimiter.can_send_message, SlidingWindowRateLimiter.cleanup_window,
    dropOld, swEmpty]

/-- Reachable-state invariant supporting the monotonicity theorem's
hypothesis: when `max_requests ≥ 1`, a `record_message` call preserves the
bound that a user's stored sequence has at most `max_requests` entries
(pruning only shrinks the sequence, and an append happens only below
capacity). -/
theorem record_message_preserves_length_le (s : SlidingWindowRateLimiter) (u : String)
    (t1 t2 : ℚ) (hmax : 1 ≤ s.max_requests)
    (hlen : ((s.userList u).length : ℤ) ≤ s.max_requests) :
    (((s.record_message u t1 t2).2.userList u).length : ℤ)
      ≤ (s.record_message u t1 t2).2.max_requests := by
  rw [record_message_max_requests]
  have hshrink : (prunedTwice s u t1 t2).length ≤ (s.userList u).length := by
    unfold prunedTwice
    exact le_trans (dropOld_length_le _ _ _) (dropOld_length_le _ _ _)
  cases hr : (s.record_message u t1 t2).1 with
  | true =>
      rw [record_message_userList_self_of_true s u t1 t2 hr]
      have hfst := record_message_fst s u t1 t2
      rw [hr] at hfst
      have hor : prunedTwice s u t1 t2 = [] ∨
          ((prunedTwice s u t1 t2).length : ℤ) < s.max_requests := by
        rcases Bool.or_eq_true_iff.mp hfst.symm with hl | hl
        · exact Or.inl (of_decide_eq_true hl)
        · exact Or.inr (of_decide_eq_true hl)
      rcases hor with hnil | hlt
      · rw [hnil]
        simpa using hmax
      · simp only [List.length_append, List.length_cons, List.length_nil]
        omega
  | false =>
      rw [record_message_userList_self_of_false s u t1 t2 hr]
      omega
